import Mathlib

/-!
Shallow embedding of the rtracer program (`src/main.rs`).

Modelling conventions:
* Rust `f32` values and arithmetic are modelled by the real numbers `ℝ`
  (exact arithmetic; `f32::sqrt` becomes `Real.sqrt`, `powi(2)` becomes `^ 2`).
* Rust `u32` values are modelled by `ℕ`; where the source performs `u32`
  arithmetic that can wrap in a release build, the result is reduced `% 2^32`
  (constant `U32` below).  `usize`-to-`u32` casts (`i as u32`,
  `colors.len() as u32`) likewise reduce `% 2^32`.
* A `panic!` is modelled by returning the pre-panic canvas state together with
  `some p` for a `Panic` kind; `none` means normal completion.
* The `image::DynamicImage` pixel buffer is modelled as a total function
  `ℕ → ℕ → Rgba`, recording exactly the `Rgba` quadruple that
  `Color::to_rgba` produces and `put_pixel` stores.
* The only `Renderable` implementor in the program is `Sphere`, so a `Scene`
  holds a list of spheres.
-/

namespace RTracer

/-- The modulus of `u32` arithmetic. -/
def U32 : ℕ := 2 ^ 32

/-- A 4-channel pixel value, as produced by `Color::to_rgba`. -/
structure Rgba where
  r : ℕ
  g : ℕ
  b : ℕ
  a : ℕ
deriving DecidableEq

/-- The `Color` struct: an RGB byte triple. -/
structure Color where
  red : ℕ
  green : ℕ
  blue : ℕ
deriving DecidableEq

/-- `Color::new`. -/
def Color.new (red green blue : ℕ) : Color :=
  { red := red, green := green, blue := blue }

/-- `Color::to_rgba`: `Rgba([self.red, self.green, self.blue, 0])`. -/
def Color.to_rgba (c : Color) : Rgba :=
  { r := c.red, g := c.green, b := c.blue, a := 0 }

/-- The kind of panic a canvas operation can raise. -/
inductive Panic where
  | bounds
  | divZero
deriving DecidableEq

/-- The `Canvas` struct: dimensions plus the pixel buffer. -/
structure Canvas where
  width : ℕ
  height : ℕ
  pixels : ℕ → ℕ → Rgba

/-- `Canvas::new`: `DynamicImage::new_rgb8` zero-initialises every pixel. -/
def Canvas.new (width height : ℕ) : Canvas :=
  { width := width, height := height, pixels := fun _ _ => ⟨0, 0, 0, 0⟩ }

/-- `image.put_pixel(x, y, pixel)`: store a pixel value at one coordinate. -/
def Canvas.writePixel (c : Canvas) (x y : ℕ) (v : Rgba) : Canvas :=
  { c with pixels := fun i j => if i = x ∧ j = y then v else c.pixels i j }

/-- `Canvas::draw`: panics when `x >= self.width || y >= self.height`,
otherwise stores `color.to_rgba()` at `(x, y)`. -/
def Canvas.draw (c : Canvas) (x y : ℕ) (color : Color) : Canvas × Option Panic :=
  if c.width ≤ x ∨ c.height ≤ y then
    (c, some Panic.bounds)
  else
    (c.writePixel x y color.to_rgba, none)

/-- The `for (i, color) in colors.iter().enumerate()` loop body of
`Canvas::draw_area`: element `i` is drawn at
`(x + (i as u32 % width), y + (i as u32 / width))`, with `u32` wrap-around,
stopping at the first panicking `draw`. -/
def Canvas.drawLoop (x y width : ℕ) : Canvas → ℕ → List Color → Canvas × Option Panic
  | c, _, [] => (c, none)
  | c, i, color :: rest =>
    match c.draw ((x + i % U32 % width) % U32) ((y + i % U32 / width) % U32) color with
    | (c2, none) => Canvas.drawLoop x y width c2 (i + 1) rest
    | (c2, some p) => (c2, some p)

/-- `Canvas::draw_area`.  When `width = 0` the function always dies of a
division by zero: if the guard `x + width > self.width` is false, the guard
itself divides `colors.len() as u32 / width`; if the guard is true, the
`panic!` call's format arguments are evaluated eagerly and they contain the
expression `colors.len() as u32 / width`, so the division-by-zero panic fires
before the bounds panic message can be produced.  With `width ≠ 0` the two
disjuncts of the guard raise the bounds panic. -/
def Canvas.draw_area (c : Canvas) (x y width : ℕ) (colors : List Color) :
    Canvas × Option Panic :=
  if width = 0 then (c, some Panic.divZero)
  else if c.width < (x + width) % U32 then (c, some Panic.bounds)
  else if c.height < (y + colors.length % U32 / width) % U32 then (c, some Panic.bounds)
  else Canvas.drawLoop x y width c 0 colors

/-- Modelled from the spec: "Equivalent to calling `draw` for every element in
sequence order", with "element `i` goes to
`(x + i % block_width, y + i / block_width)`" — the sequential-`draw`
reference semantics that `Canvas::draw_area` is claimed to refine (exact
arithmetic, no pre-check). -/
def Canvas.drawSeq (x y width : ℕ) : Canvas → ℕ → List Color → Canvas × Option Panic
  | c, _, [] => (c, none)
  | c, i, color :: rest =>
    match c.draw (x + i % width) (y + i / width) color with
    | (c2, none) => Canvas.drawSeq x y width c2 (i + 1) rest
    | (c2, some p) => (c2, some p)

/-- The `gfx_maths::Vec3` value type (an `f32` triple, modelled over `ℝ`). -/
structure Vec3 where
  x : ℝ
  y : ℝ
  z : ℝ

/-- Componentwise vector subtraction. -/
def Vec3.sub (a b : Vec3) : Vec3 :=
  { x := a.x - b.x, y := a.y - b.y, z := a.z - b.z }

/-- Euclidean dot product. -/
def Vec3.dot (a b : Vec3) : ℝ :=
  a.x * b.x + a.y * b.y + a.z * b.z

/-- The `Ray` struct. -/
structure Ray where
  origin : Vec3
  direction : Vec3

/-- `Ray::new`. -/
def Ray.new (origin direction : Vec3) : Ray :=
  { origin := origin, direction := direction }

/-- The point `origin + t * direction` at ray parameter `t` (the geometric
meaning of a hit distance, used to state what `intersect` returns). -/
def Ray.pointAt (ray : Ray) (t : ℝ) : Vec3 :=
  { x := ray.origin.x + t * ray.direction.x
    y := ray.origin.y + t * ray.direction.y
    z := ray.origin.z + t * ray.direction.z }

/-- The `Sphere` struct. -/
structure Sphere where
  center : Vec3
  radius : ℝ

/-- `t_ca = L . V`: the projection of the center-direction vector onto the ray
direction (the `ray_to_center` local of `Sphere::intersect`). -/
noncomputable def Sphere.rayToCenter (s : Sphere) (ray : Ray) : ℝ :=
  (s.center.sub ray.origin).dot ray.direction

/-- `d^2 = L . L - t_ca^2`: the squared distance from the sphere center to the
ray's line (the `proj_dist2` local of `Sphere::intersect`). -/
noncomputable def Sphere.projDist2 (s : Sphere) (ray : Ray) : ℝ :=
  (s.center.sub ray.origin).dot (s.center.sub ray.origin) - s.rayToCenter ray ^ 2

/-- `Sphere::intersect` (`impl Renderable for Sphere`), transcribed guard by
guard from the source. -/
noncomputable def Sphere.intersect (s : Sphere) (ray : Ray) : Option ℝ :=
  let center_dir := s.center.sub ray.origin
  let ray_to_center := center_dir.dot ray.direction
  if ray_to_center < 0 then none
  else
    let proj_dist2 := center_dir.dot center_dir - ray_to_center ^ 2
    let radius2 := s.radius ^ 2
    if proj_dist2 > radius2 then none
    else
      let penetration_halfway := Real.sqrt (radius2 - proj_dist2)
      let hit_in := ray_to_center - penetration_halfway
      let hit_out := ray_to_center + penetration_halfway
      if hit_in < 0 ∧ hit_out < 0 then none
      else some (if hit_in < hit_out then hit_in else hit_out)

/-- The `Scene` struct; `Sphere` is the only `Renderable` in the program. -/
structure Scene where
  renderables : List Sphere

/-- The fixed hit color `Color::new(0, 255, 0)` bound at the top of
`Raytracer::render`. -/
def renderColor : Color := Color.new 0 255 0

/-- The ray built for pixel `(x, y)`:
`Ray::new(Vec3::new(x as f32, y as f32, 0.0), Vec3::new(0.0, 0.0, 1.0))`. -/
noncomputable def pixelRay (x y : ℕ) : Ray :=
  Ray.new ⟨(x : ℝ), (y : ℝ), 0⟩ ⟨0, 0, 1⟩

/-- The inner `for object in &self.scene.renderables` loop of
`Raytracer::render`: draw the hit color once per object whose `intersect`
returns `Some`. -/
noncomputable def renderObjects (x y : ℕ) : List Sphere → Canvas → Canvas × Option Panic
  | [], c => (c, none)
  | o :: rest, c =>
    if (o.intersect (pixelRay x y)).isSome then
      match c.draw x y renderColor with
      | (c2, none) => renderObjects x y rest c2
      | (c2, some p) => (c2, some p)
    else renderObjects x y rest c

/-- The middle `for y in 0..height` loop of `Raytracer::render`, iterating
over the remaining list of `y` values. -/
noncomputable def renderCols (s : List Sphere) (x : ℕ) : List ℕ → Canvas → Canvas × Option Panic
  | [], c => (c, none)
  | yv :: ys, c =>
    match renderObjects x yv s c with
    | (c2, none) => renderCols s x ys c2
    | (c2, some p) => (c2, some p)

/-- The outer `for x in 0..width` loop of `Raytracer::render`. -/
noncomputable def renderRows (s : List Sphere) (height : ℕ) :
    List ℕ → Canvas → Canvas × Option Panic
  | [], c => (c, none)
  | xv :: xs, c =>
    match renderCols s xv (List.range height) c with
    | (c2, none) => renderRows s height xs c2
    | (c2, some p) => (c2, some p)

/-- `Raytracer::render`: dimensions are read once via `get_dimensions`, then
the nested pixel loops run. -/
noncomputable def Raytracer.render (r : Scene) (c : Canvas) : Canvas × Option Panic :=
  renderRows r.renderables c.height (List.range c.width) c

/-- Ghost instrumentation of the inner object loop: the list of coordinates at
which `canvas.draw` is invoked, in call order. -/
noncomputable def renderObjectsTrace (x y : ℕ) : List Sphere → List (ℕ × ℕ)
  | [] => []
  | o :: rest =>
    if (o.intersect (pixelRay x y)).isSome then (x, y) :: renderObjectsTrace x y rest
    else renderObjectsTrace x y rest

/-- Ghost instrumentation of the middle loop: draw-call targets for one column
of pixels. -/
noncomputable def renderColsTrace (s : List Sphere) (x : ℕ) : List ℕ → List (ℕ × ℕ)
  | [] => []
  | yv :: ys => renderObjectsTrace x yv s ++ renderColsTrace s x ys

/-- Ghost instrumentation of the outer loop. -/
noncomputable def renderRowsTrace (s : List Sphere) (height : ℕ) : List ℕ → List (ℕ × ℕ)
  | [] => []
  | xv :: xs => renderColsTrace s xv (List.range height) ++ renderRowsTrace s height xs

/-- The full sequence of draw-call targets issued by one `Raytracer::render`
pass (within the pixel loops every draw is in bounds, so no call panics and
the trace covers the whole pass; see `render_spec`). -/
noncomputable def renderTrace (r : Scene) (c : Canvas) : List (ℕ × ℕ) :=
  renderRowsTrace r.renderables c.height (List.range c.width)

/-- Whether any object of the scene reports a hit for pixel `(x, y)`'s ray. -/
noncomputable def anyHit (s : List Sphere) (x y : ℕ) : Bool :=
  s.any fun o => (o.intersect (pixelRay x y)).isSome

/-! ### Basic facts about `Canvas.draw` -/

theorem draw_of_oob {c : Canvas} {x y : ℕ} (h : c.width ≤ x ∨ c.height ≤ y) (col : Color) :
    c.draw x y col = (c, some Panic.bounds) := by
  unfold Canvas.draw
  rw [if_pos h]

theorem draw_of_lt {c : Canvas} {x y : ℕ} (hx : x < c.width) (hy : y < c.height) (col : Color) :
    c.draw x y col = (c.writePixel x y col.to_rgba, none) := by
  unfold Canvas.draw
  rw [if_neg]
  push_neg
  exact ⟨hx, hy⟩

theorem writePixel_pixels (c : Canvas) (x y : ℕ) (v : Rgba) (a b : ℕ) :
    (c.writePixel x y v).pixels a b = if a = x ∧ b = y then v else c.pixels a b := rfl

theorem draw_fst_width (c : Canvas) (x y : ℕ) (col : Color) :
    ((c.draw x y col).1).width = c.width := by
  unfold Canvas.draw
  split <;> rfl

theorem draw_fst_height (c : Canvas) (x y : ℕ) (col : Color) :
    ((c.draw x y col).1).height = c.height := by
  unfold Canvas.draw
  split <;> rfl

theorem draw_pixels_of_lt {c : Canvas} {x y : ℕ} (hx : x < c.width) (hy : y < c.height)
    (col : Color) (a b : ℕ) :
    ((c.draw x y col).1).pixels a b =
      if a = x ∧ b = y then col.to_rgba else c.pixels a b := by
  rw [draw_of_lt hx hy]
  rfl

/-- `Canvas.draw` never touches a pixel cell outside the canvas extent. -/
theorem draw_pixels_oob (c : Canvas) (x y : ℕ) (col : Color) {a b : ℕ}
    (h : c.width ≤ a ∨ c.height ≤ b) :
    ((c.draw x y col).1).pixels a b = c.pixels a b := by
  by_cases hin : c.width ≤ x ∨ c.height ≤ y
  · rw [draw_of_oob hin]
  · push_neg at hin
    rw [draw_pixels_of_lt hin.1 hin.2]
    rw [if_neg]
    rintro ⟨rfl, rfl⟩
    rcases h with h | h
    · exact absurd h (not_le.mpr hin.1)
    · exact absurd h (not_le.mpr hin.2)

/-! ### Characterizations of `Sphere.intersect` -/

/-- `Sphere::intersect` reports a hit exactly when the projection of the
center onto the ray is non-negative and the squared line-to-center distance is
at most the squared radius: given those two guards, `hit_out` is non-negative,
so the final both-negative guard can never fire. -/
theorem intersect_isSome_iff (s : Sphere) (ray : Ray) :
    (s.intersect ray).isSome = true ↔
      0 ≤ s.rayToCenter ray ∧ s.projDist2 ray ≤ s.radius ^ 2 := by
  unfold Sphere.intersect
  simp only [Sphere.projDist2, Sphere.rayToCenter]
  split_ifs with h1 h2 h3 h4
  · simp only [Option.isSome_none, Bool.false_eq_true, false_iff, not_and]
    intro h
    exact absurd h1 (not_lt.mpr h)
  · simp only [Option.isSome_none, Bool.false_eq_true, false_iff, not_and]
    intro _
    exact not_le.mpr h2
  · exact absurd h3.2 (not_lt.mpr (by
      have := Real.sqrt_nonneg (s.radius ^ 2 -
        ((s.center.sub ray.origin).dot (s.center.sub ray.origin) -
          (s.center.sub ray.origin).dot ray.direction ^ 2))
      have h1' := not_lt.mp h1
      linarith))
  · simp only [Option.isSome_some, true_iff]
    exact ⟨not_lt.mp h1, not_lt.mp h2⟩
  · simp only [Option.isSome_some, true_iff]
    exact ⟨not_lt.mp h1, not_lt.mp h2⟩

/-- Inversion for `Sphere.intersect`: a returned hit distance is always
`t_ca - sqrt(r^2 - d^2)` (when the two roots coincide the code returns
`hit_out`, which then equals `hit_in`), and the first two guards passed. -/
theorem intersect_eq_some_dest {s : Sphere} {ray : Ray} {t : ℝ}
    (h : s.intersect ray = some t) :
    0 ≤ s.rayToCenter ray ∧ s.projDist2 ray ≤ s.radius ^ 2 ∧
      t = s.rayToCenter ray - Real.sqrt (s.radius ^ 2 - s.projDist2 ray) := by
  unfold Sphere.intersect at h
  simp only [Sphere.projDist2, Sphere.rayToCenter] at h ⊢
  split_ifs at h with h1 h2 h3 h4 <;> try (exact Option.noConfusion h)
  · rw [Option.some_inj] at h
    exact ⟨not_lt.mp h1, not_lt.mp h2, h.symm⟩
  · rw [Option.some_inj] at h
    refine ⟨not_lt.mp h1, not_lt.mp h2, ?_⟩
    have hsq := Real.sqrt_nonneg (s.radius ^ 2 -
      ((s.center.sub ray.origin).dot (s.center.sub ray.origin) -
        (s.center.sub ray.origin).dot ray.direction ^ 2))
    have h4' := not_lt.mp h4
    have hzero : Real.sqrt (s.radius ^ 2 -
        ((s.center.sub ray.origin).dot (s.center.sub ray.origin) -
          (s.center.sub ray.origin).dot ray.direction ^ 2)) = 0 :=
      le_antisymm (by linarith) hsq
    rw [← h, hzero]
    ring

/-! ### Facts about `Canvas.drawLoop` and `Canvas.draw_area` -/

/-- The element loop of `draw_area` preserves the canvas dimensions and never
changes a pixel cell outside the canvas extent, panic or no panic: every
write goes through `draw`'s per-pixel bounds check. -/
theorem drawLoop_preserve (x y width : ℕ) (colors : List Color) :
    ∀ (c : Canvas) (i : ℕ),
      ((Canvas.drawLoop x y width c i colors).1).width = c.width ∧
      ((Canvas.drawLoop x y width c i colors).1).height = c.height ∧
      ∀ a b, c.width ≤ a ∨ c.height ≤ b →
        ((Canvas.drawLoop x y width c i colors).1).pixels a b = c.pixels a b := by
  induction colors with
  | nil => exact fun c i => ⟨rfl, rfl, fun a b _ => rfl⟩
  | cons color rest ih =>
    intro c i
    unfold Canvas.drawLoop
    rcases hd : c.draw ((x + i % U32 % width) % U32) ((y + i % U32 / width) % U32) color
      with ⟨c2, p⟩
    have hw : c2.width = c.width := by
      have h := draw_fst_width c ((x + i % U32 % width) % U32) ((y + i % U32 / width) % U32)
        color
      rw [hd] at h
      exact h
    have hh : c2.height = c.height := by
      have h := draw_fst_height c ((x + i % U32 % width) % U32) ((y + i % U32 / width) % U32)
        color
      rw [hd] at h
      exact h
    have hpix : ∀ a b, c.width ≤ a ∨ c.height ≤ b → c2.pixels a b = c.pixels a b := by
      intro a b hab
      have h := draw_pixels_oob c ((x + i % U32 % width) % U32) ((y + i % U32 / width) % U32)
        color hab
      rw [hd] at h
      exact h
    cases p with
    | none =>
      obtain ⟨ihw, ihh, ihp⟩ := ih c2 (i + 1)
      refine ⟨by rw [ihw, hw], by rw [ihh, hh], ?_⟩
      intro a b hab
      rw [ihp a b (by rw [hw, hh]; exact hab), hpix a b hab]
    | some pp =>
      exact ⟨hw, hh, hpix⟩

/-- `draw_area` never changes a pixel cell outside the canvas extent, whether
or not it panics along the way. -/
theorem draw_area_pixels_oob (c : Canvas) (x y width : ℕ) (colors : List Color)
    {a b : ℕ} (h : c.width ≤ a ∨ c.height ≤ b) :
    ((c.draw_area x y width colors).1).pixels a b = c.pixels a b := by
  unfold Canvas.draw_area
  split_ifs
  · rfl
  · rfl
  · rfl
  · exact (drawLoop_preserve x y width colors c 0).2.2 a b h

/-- When every index stays below the `u32` modulus, the wrap-around
coordinate arithmetic of the `draw_area` loop agrees with the exact
sequential-`draw` reference semantics. -/
theorem drawLoop_eq_drawSeq (x y width N : ℕ) (hw : 0 < width)
    (hxwU : x + width < U32) (hyNU : y + N / width < U32) (hNU : N < U32) :
    ∀ (colors : List Color) (i : ℕ) (c : Canvas), i + colors.length ≤ N →
      Canvas.drawLoop x y width c i colors = Canvas.drawSeq x y width c i colors := by
  intro colors
  induction colors with
  | nil => exact fun i c _ => rfl
  | cons color rest ih =>
    intro i c hlen
    have hiN : i < N := by
      simp only [List.length_cons] at hlen
      omega
    have hiU : i % U32 = i := Nat.mod_eq_of_lt (lt_trans hiN hNU)
    have hx1 : (x + i % U32 % width) % U32 = x + i % width := by
      rw [hiU]
      apply Nat.mod_eq_of_lt
      have hm : i % width < width := Nat.mod_lt _ hw
      omega
    have hy1 : (y + i % U32 / width) % U32 = y + i / width := by
      rw [hiU]
      apply Nat.mod_eq_of_lt
      have hdiv : i / width ≤ N / width := Nat.div_le_div_right (le_of_lt hiN)
      omega
    unfold Canvas.drawLoop Canvas.drawSeq
    rw [hx1, hy1]
    rcases hd : c.draw (x + i % width) (y + i / width) color with ⟨c2, p⟩
    cases p with
    | none =>
      exact ih (i + 1) c2 (by simp only [List.length_cons] at hlen; omega)
    | some pp => rfl

/-- When the pre-check of `draw_area` passes (and no `u32` wrap occurs),
`draw_area` runs exactly the sequential-`draw` reference semantics. -/
theorem draw_area_eq_drawSeq (c : Canvas) (x y width : ℕ) (colors : List Color)
    (hw : 0 < width) (hxw : x + width ≤ c.width)
    (hyN : y + colors.length / width ≤ c.height)
    (hWU : c.width < U32) (hHU : c.height < U32) (hNU : colors.length < U32) :
    c.draw_area x y width colors = Canvas.drawSeq x y width c 0 colors := by
  unfold Canvas.draw_area
  have hx : (x + width) % U32 = x + width := Nat.mod_eq_of_lt (by omega)
  have hlen : colors.length % U32 = colors.length := Nat.mod_eq_of_lt hNU
  have hy2 : (y + colors.length / width) % U32 = y + colors.length / width :=
    Nat.mod_eq_of_lt (by omega)
  rw [if_neg (Nat.pos_iff_ne_zero.mp hw)]
  rw [hx, if_neg (not_lt.mpr hxw), hlen, hy2, if_neg (not_lt.mpr hyN)]
  exact drawLoop_eq_drawSeq x y width colors.length hw (by omega) (by omega) hNU
    colors 0 c (by omega)

/-! ### Characterization of the render loop -/

/-- Effect of the inner object loop at an in-bounds pixel: it never panics,
and the only cell it can change is `(x, y)`, which ends up holding the fixed
hit color exactly when some object's `intersect` reports a hit. -/
theorem renderObjects_spec (x y : ℕ) (objs : List Sphere) :
    ∀ c : Canvas, x < c.width → y < c.height →
      (renderObjects x y objs c).2 = none ∧
      ((renderObjects x y objs c).1).width = c.width ∧
      ((renderObjects x y objs c).1).height = c.height ∧
      ∀ i j, ((renderObjects x y objs c).1).pixels i j =
        if i = x ∧ j = y ∧ anyHit objs i j = true then renderColor.to_rgba
        else c.pixels i j := by
  induction objs with
  | nil =>
    intro c _ _
    refine ⟨rfl, rfl, rfl, fun i j => ?_⟩
    have hn : ¬(i = x ∧ j = y ∧ anyHit ([] : List Sphere) i j = true) := by
      rintro ⟨-, -, habs⟩
      simp [anyHit] at habs
    rw [if_neg hn]
    rfl
  | cons o rest ih =>
    intro c hx hy
    unfold renderObjects
    by_cases hhit : (o.intersect (pixelRay x y)).isSome = true
    · rw [if_pos hhit, draw_of_lt hx hy]
      obtain ⟨ih1, ih2, ih3, ih4⟩ := ih (c.writePixel x y renderColor.to_rgba) hx hy
      refine ⟨ih1, ih2, ih3, fun i j => ?_⟩
      rw [ih4 i j, writePixel_pixels]
      by_cases hij : i = x ∧ j = y
      · obtain ⟨rfl, rfl⟩ := hij
        have hcons : anyHit (o :: rest) i j = true := by simp [anyHit, hhit]
        by_cases hrest : anyHit rest i j = true
        · rw [if_pos (⟨rfl, rfl, hrest⟩ : i = i ∧ j = j ∧ anyHit rest i j = true),
            if_pos (⟨rfl, rfl, hcons⟩ : i = i ∧ j = j ∧ anyHit (o :: rest) i j = true)]
        · have hn1 : ¬(i = i ∧ j = j ∧ anyHit rest i j = true) := fun hh => hrest hh.2.2
          rw [if_neg hn1, if_pos (⟨rfl, rfl⟩ : i = i ∧ j = j),
            if_pos (⟨rfl, rfl, hcons⟩ : i = i ∧ j = j ∧ anyHit (o :: rest) i j = true)]
      · have hn1 : ¬(i = x ∧ j = y ∧ anyHit rest i j = true) := fun hh => hij ⟨hh.1, hh.2.1⟩
        have hn2 : ¬(i = x ∧ j = y ∧ anyHit (o :: rest) i j = true) :=
          fun hh => hij ⟨hh.1, hh.2.1⟩
        rw [if_neg hn1, if_neg hn2, if_neg hij]
    · rw [if_neg hhit]
      obtain ⟨ih1, ih2, ih3, ih4⟩ := ih c hx hy
      refine ⟨ih1, ih2, ih3, fun i j => ?_⟩
      rw [ih4 i j]
      by_cases hij : i = x ∧ j = y
      · obtain ⟨rfl, rfl⟩ := hij
        have hfalse : (o.intersect (pixelRay i j)).isSome = false :=
          Bool.eq_false_iff.mpr hhit
        simp only [anyHit, List.any_cons, hfalse, Bool.false_or]
      · have hn1 : ¬(i = x ∧ j = y ∧ anyHit rest i j = true) := fun hh => hij ⟨hh.1, hh.2.1⟩
        have hn2 : ¬(i = x ∧ j = y ∧ anyHit (o :: rest) i j = true) :=
          fun hh => hij ⟨hh.1, hh.2.1⟩
        rw [if_neg hn1, if_neg hn2]

/-- Effect of the `for y in 0..height` loop for one column `x`. -/
theorem renderCols_spec (s : List Sphere) (x : ℕ) (ys : List ℕ) :
    ∀ c : Canvas, x < c.width → (∀ v ∈ ys, v < c.height) →
      (renderCols s x ys c).2 = none ∧
      ((renderCols s x ys c).1).width = c.width ∧
      ((renderCols s x ys c).1).height = c.height ∧
      ∀ i j, ((renderCols s x ys c).1).pixels i j =
        if i = x ∧ j ∈ ys ∧ anyHit s i j = true then renderColor.to_rgba
        else c.pixels i j := by
  induction ys with
  | nil =>
    intro c _ _
    refine ⟨rfl, rfl, rfl, fun i j => ?_⟩
    have hn : ¬(i = x ∧ j ∈ ([] : List ℕ) ∧ anyHit s i j = true) := by
      rintro ⟨-, hj, -⟩
      exact absurd hj (List.not_mem_nil j)
    rw [if_neg hn]
    rfl
  | cons yv ys ih =>
    intro c hx hys
    unfold renderCols
    obtain ⟨h1, h2, h3, h4⟩ := renderObjects_spec x yv s c hx (hys yv (by simp))
    rcases hro : renderObjects x yv s c with ⟨c2, p⟩
    rw [hro] at h1 h2 h3 h4
    obtain rfl : p = none := h1
    have h2' : c2.width = c.width := h2
    have h3' : c2.height = c.height := h3
    have h4' : ∀ i j, c2.pixels i j =
        if i = x ∧ j = yv ∧ anyHit s i j = true then renderColor.to_rgba
        else c.pixels i j := h4
    obtain ⟨ih1, ih2, ih3, ih4⟩ := ih c2 (by rw [h2']; exact hx)
      (fun v hv => by rw [h3']; exact hys v (List.mem_cons_of_mem _ hv))
    refine ⟨ih1, by rw [ih2, h2'], by rw [ih3, h3'], fun i j => ?_⟩
    rw [ih4 i j, h4' i j]
    simp only [List.mem_cons]
    split_ifs <;> first | rfl | tauto

/-- Effect of the `for x in 0..width` loop. -/
theorem renderRows_spec (s : List Sphere) (hgt : ℕ) (xs : List ℕ) :
    ∀ c : Canvas, (∀ v ∈ xs, v < c.width) → hgt ≤ c.height →
      (renderRows s hgt xs c).2 = none ∧
      ((renderRows s hgt xs c).1).width = c.width ∧
      ((renderRows s hgt xs c).1).height = c.height ∧
      ∀ i j, ((renderRows s hgt xs c).1).pixels i j =
        if i ∈ xs ∧ j < hgt ∧ anyHit s i j = true then renderColor.to_rgba
        else c.pixels i j := by
  induction xs with
  | nil =>
    intro c _ _
    refine ⟨rfl, rfl, rfl, fun i j => ?_⟩
    have hn : ¬(i ∈ ([] : List ℕ) ∧ j < hgt ∧ anyHit s i j = true) := by
      rintro ⟨hi, -, -⟩
      exact absurd hi (List.not_mem_nil i)
    rw [if_neg hn]
    rfl
  | cons xv xs ih =>
    intro c hxs hh
    unfold renderRows
    obtain ⟨h1, h2, h3, h4⟩ := renderCols_spec s xv (List.range hgt) c
      (hxs xv (List.mem_cons_self xv xs))
      (fun v hv => lt_of_lt_of_le (List.mem_range.mp hv) hh)
    rcases hro : renderCols s xv (List.range hgt) c with ⟨c2, p⟩
    rw [hro] at h1 h2 h3 h4
    obtain rfl : p = none := h1
    have h2' : c2.width = c.width := h2
    have h3' : c2.height = c.height := h3
    have h4' : ∀ i j, c2.pixels i j =
        if i = xv ∧ j ∈ List.range hgt ∧ anyHit s i j = true then renderColor.to_rgba
        else c.pixels i j := h4
    obtain ⟨ih1, ih2, ih3, ih4⟩ := ih c2
      (fun v hv => by rw [h2']; exact hxs v (List.mem_cons_of_mem _ hv))
      (by rw [h3']; exact hh)
    refine ⟨ih1, by rw [ih2, h2'], by rw [ih3, h3'], fun i j => ?_⟩
    rw [ih4 i j, h4' i j]
    simp only [List.mem_cons, List.mem_range]
    split_ifs <;> first | rfl | tauto

/-- Closed form for one `Raytracer::render` pass: it never panics, preserves
the canvas dimensions, paints every in-extent pixel whose ray some object
hits with the fixed color, and leaves every other cell untouched. -/
theorem render_spec (r : Scene) (c : Canvas) :
    (Raytracer.render r c).2 = none ∧
    ((Raytracer.render r c).1).width = c.width ∧
    ((Raytracer.render r c).1).height = c.height ∧
    ∀ i j, ((Raytracer.render r c).1).pixels i j =
      if i < c.width ∧ j < c.height ∧ anyHit r.renderables i j = true then
        renderColor.to_rgba
      else c.pixels i j := by
  unfold Raytracer.render
  obtain ⟨h1, h2, h3, h4⟩ := renderRows_spec r.renderables c.height (List.range c.width) c
    (fun v hv => List.mem_range.mp hv) (le_refl _)
  refine ⟨h1, h2, h3, fun i j => ?_⟩
  rw [h4 i j]
  simp only [List.mem_range]

/-! ### The draw-call trace of the render loop -/

theorem mem_renderObjectsTrace (x y : ℕ) (objs : List Sphere) (p : ℕ × ℕ) :
    p ∈ renderObjectsTrace x y objs ↔ p = (x, y) ∧ anyHit objs x y = true := by
  induction objs with
  | nil => simp [renderObjectsTrace, anyHit]
  | cons o rest ih =>
    unfold renderObjectsTrace
    by_cases hhit : (o.intersect (pixelRay x y)).isSome = true
    · rw [if_pos hhit]
      have hcons : anyHit (o :: rest) x y = true := by simp [anyHit, hhit]
      rw [hcons]
      simp only [List.mem_cons, ih, and_true]
      constructor
      · rintro (h | ⟨h, -⟩) <;> exact h
      · exact fun h => Or.inl h
    · rw [if_neg hhit]
      have hcons : anyHit (o :: rest) x y = anyHit rest x y := by
        simp [anyHit, Bool.eq_false_iff.mpr hhit]
      rw [ih, hcons]

/-- Write-count of the inner object loop: cell `(a, b)` receives one write per
hitting object when `(a, b)` is the loop's own pixel, and none otherwise. -/
theorem count_renderObjectsTrace (x y : ℕ) (objs : List Sphere) (a b : ℕ) :
    (renderObjectsTrace x y objs).count (a, b) =
      if a = x ∧ b = y then
        objs.countP (fun o => (o.intersect (pixelRay a b)).isSome) else 0 := by
  by_cases hab : a = x ∧ b = y
  · obtain ⟨rfl, rfl⟩ := hab
    rw [if_pos ⟨rfl, rfl⟩]
    induction objs with
    | nil => simp [renderObjectsTrace]
    | cons o rest ih =>
      unfold renderObjectsTrace
      by_cases hhit : (o.intersect (pixelRay a b)).isSome = true
      · rw [if_pos hhit, List.count_cons_self,
          List.countP_cons_of_pos (fun o => (o.intersect (pixelRay a b)).isSome) rest hhit,
          ih]
      · rw [if_neg hhit,
          List.countP_cons_of_neg (fun o => (o.intersect (pixelRay a b)).isSome) rest hhit,
          ih]
  · rw [if_neg hab, List.count_eq_zero]
    intro hmem
    rw [mem_renderObjectsTrace] at hmem
    exact hab ⟨congrArg Prod.fst hmem.1, congrArg Prod.snd hmem.1⟩

theorem count_renderColsTrace (s : List Sphere) (x : ℕ) (ys : List ℕ) (a b : ℕ)
    (hnd : ys.Nodup) :
    (renderColsTrace s x ys).count (a, b) =
      if a = x ∧ b ∈ ys then
        s.countP (fun o => (o.intersect (pixelRay a b)).isSome) else 0 := by
  induction ys with
  | nil => simp [renderColsTrace]
  | cons yv ys ih =>
    obtain ⟨hyv, hnd2⟩ := List.nodup_cons.mp hnd
    unfold renderColsTrace
    rw [List.count_append, count_renderObjectsTrace, ih hnd2]
    by_cases hab : a = x ∧ b = yv
    · obtain ⟨rfl, rfl⟩ := hab
      rw [if_pos ⟨rfl, rfl⟩, if_neg fun hh => hyv hh.2,
        if_pos ⟨rfl, List.mem_cons_self b ys⟩, add_zero]
    · rw [if_neg hab]
      by_cases hbys : a = x ∧ b ∈ ys
      · rw [if_pos hbys, if_pos ⟨hbys.1, List.mem_cons_of_mem _ hbys.2⟩, zero_add]
      · rw [if_neg hbys, if_neg, add_zero]
        rintro ⟨hax, hmem⟩
        rcases List.mem_cons.mp hmem with h | h
        · exact hab ⟨hax, h⟩
        · exact hbys ⟨hax, h⟩

theorem count_renderRowsTrace (s : List Sphere) (hgt : ℕ) (xs : List ℕ) (a b : ℕ)
    (hnd : xs.Nodup) :
    (renderRowsTrace s hgt xs).count (a, b) =
      if a ∈ xs ∧ b < hgt then
        s.countP (fun o => (o.intersect (pixelRay a b)).isSome) else 0 := by
  induction xs with
  | nil => simp [renderRowsTrace]
  | cons xv xs ih =>
    obtain ⟨hxv, hnd2⟩ := List.nodup_cons.mp hnd
    unfold renderRowsTrace
    rw [List.count_append, count_renderColsTrace s xv _ a b (List.nodup_range hgt), ih hnd2]
    by_cases hab : a = xv ∧ b < hgt
    · obtain ⟨rfl, hb⟩ := hab
      rw [if_pos ⟨rfl, List.mem_range.mpr hb⟩, if_neg fun hh => hxv hh.1,
        if_pos ⟨List.mem_cons_self a xs, hb⟩, add_zero]
    · have hn1 : ¬(a = xv ∧ b ∈ List.range hgt) := by
        rintro ⟨rfl, hm⟩
        exact hab ⟨rfl, List.mem_range.mp hm⟩
      rw [if_neg hn1, zero_add]
      by_cases hbxs : a ∈ xs ∧ b < hgt
      · rw [if_pos hbxs, if_pos ⟨List.mem_cons_of_mem _ hbxs.1, hbxs.2⟩]
      · rw [if_neg hbxs, if_neg]
        rintro ⟨hmem, hb⟩
        rcases List.mem_cons.mp hmem with h | h
        · exact hab ⟨h, hb⟩
        · exact hbxs ⟨h, hb⟩

/-- Write-count of a whole render pass: an in-extent cell is written once per
object that hits its ray (and never by any other pixel's iteration); cells
outside the extent are never written. -/
theorem count_renderTrace (r : Scene) (c : Canvas) (a b : ℕ) :
    (renderTrace r c).count (a, b) =
      if a < c.width ∧ b < c.height then
        r.renderables.countP (fun o => (o.intersect (pixelRay a b)).isSome) else 0 := by
  unfold renderTrace
  rw [count_renderRowsTrace _ _ _ a b (List.nodup_range c.width)]
  by_cases hab : a < c.width ∧ b < c.height
  · rw [if_pos ⟨List.mem_range.mpr hab.1, hab.2⟩, if_pos hab]
  · rw [if_neg hab, if_neg]
    rintro ⟨hm, hb⟩
    exact hab ⟨List.mem_range.mp hm, hb⟩

/-- Membership in the render trace: pixel `(a, b)` is drawn at all iff it lies
in the canvas extent and some object hits its ray. -/
theorem mem_renderTrace (r : Scene) (c : Canvas) (a b : ℕ) :
    (a, b) ∈ renderTrace r c ↔
      a < c.width ∧ b < c.height ∧ anyHit r.renderables a b = true := by
  rw [← List.count_pos_iff, count_renderTrace]
  by_cases hab : a < c.width ∧ b < c.height
  · rw [if_pos hab]
    constructor
    · intro hpos
      refine ⟨hab.1, hab.2, ?_⟩
      by_contra hno
      have hz : r.renderables.countP
          (fun o => (o.intersect (pixelRay a b)).isSome) = 0 := by
        rw [List.countP_eq_zero]
        intro o ho hsome
        exact hno (by simp [anyHit]; exact ⟨o, ho, hsome⟩)
      omega
    · rintro ⟨-, -, hhit⟩
      simp only [anyHit, List.any_eq_true] at hhit
      obtain ⟨o, ho, hsome⟩ := hhit
      have hp : 0 < r.renderables.countP
          (fun o => (o.intersect (pixelRay a b)).isSome) :=
        List.countP_pos_iff.mpr ⟨o, ho, hsome⟩
      omega
  · rw [if_neg hab]
    constructor
    · omega
    · rintro ⟨h1, h2, -⟩
      exact absurd ⟨h1, h2⟩ hab

/-! ### Further helpers for the intersection claims -/

/-- `Sphere.intersect` restated through `rayToCenter`/`projDist2` (definitional). -/
theorem intersect_eval (s : Sphere) (ray : Ray) :
    s.intersect ray =
      if s.rayToCenter ray < 0 then none
      else if s.projDist2 ray > s.radius ^ 2 then none
      else
        if s.rayToCenter ray - Real.sqrt (s.radius ^ 2 - s.projDist2 ray) < 0 ∧
            s.rayToCenter ray + Real.sqrt (s.radius ^ 2 - s.projDist2 ray) < 0 then none
        else
          some
            (if s.rayToCenter ray - Real.sqrt (s.radius ^ 2 - s.projDist2 ray) <
                s.rayToCenter ray + Real.sqrt (s.radius ^ 2 - s.projDist2 ray) then
              s.rayToCenter ray - Real.sqrt (s.radius ^ 2 - s.projDist2 ray)
            else s.rayToCenter ray + Real.sqrt (s.radius ^ 2 - s.projDist2 ray)) := rfl

/-- Squared distance from the point at ray parameter `u` to the sphere
center, expanded as a quadratic in `u`. -/
theorem pointAt_sub_center_dot (ray : Ray) (s : Sphere) (u : ℝ) :
    ((ray.pointAt u).sub s.center).dot ((ray.pointAt u).sub s.center) =
      u ^ 2 * (ray.direction.dot ray.direction) -
        2 * u * ((s.center.sub ray.origin).dot ray.direction) +
        (s.center.sub ray.origin).dot (s.center.sub ray.origin) := by
  simp only [Ray.pointAt, Vec3.sub, Vec3.dot]
  ring

/-! ### Claim theorems -/

/-- C1 (counterexample): for the unit-direction ray from the origin along the
`z` axis and the sphere of radius 2 centered at `(0,0,1)` — a ray origin
strictly inside the sphere — `Sphere::intersect` returns `Some(-1)`, a
negative hit distance, refuting "whenever it returns Some(t), t is
non-negative". -/
theorem claim1_counterexample :
    Sphere.intersect ⟨⟨0, 0, 1⟩, 2⟩ (Ray.new ⟨0, 0, 0⟩ ⟨0, 0, 1⟩) = some (-1) ∧
    Vec3.dot ⟨0, 0, 1⟩ ⟨0, 0, 1⟩ = 1 ∧ (-1 : ℝ) < 0 := by
  refine ⟨?_, by norm_num [Vec3.dot], by norm_num⟩
  have h1 : Sphere.rayToCenter ⟨⟨0, 0, 1⟩, 2⟩ (Ray.new ⟨0, 0, 0⟩ ⟨0, 0, 1⟩) = 1 := by
    norm_num [Sphere.rayToCenter, Vec3.sub, Vec3.dot, Ray.new]
  have h2 : Sphere.projDist2 ⟨⟨0, 0, 1⟩, 2⟩ (Ray.new ⟨0, 0, 0⟩ ⟨0, 0, 1⟩) = 0 := by
    norm_num [Sphere.projDist2, Sphere.rayToCenter, Vec3.sub, Vec3.dot, Ray.new]
  have hs : Real.sqrt ((2 : ℝ) ^ 2 - 0) = 2 := by
    rw [sub_zero, Real.sqrt_sq]
    norm_num
  rw [intersect_eval, h1, h2, hs]
  norm_num

/-- C1 (amended): for a unit-direction ray whose origin is not strictly
inside the sphere, a returned hit distance is non-negative, lies on the
sphere surface, and is the nearest such non-negative surface parameter.
(When the origin is strictly inside, the returned `hit_in` is negative, as
the counterexample shows.) -/
theorem claim1_amended (s : Sphere) (ray : Ray) (t : ℝ)
    (hunit : ray.direction.dot ray.direction = 1)
    (houtside : s.radius ^ 2 ≤ (s.center.sub ray.origin).dot (s.center.sub ray.origin))
    (hsome : s.intersect ray = some t) :
    0 ≤ t ∧
    ((ray.pointAt t).sub s.center).dot ((ray.pointAt t).sub s.center) = s.radius ^ 2 ∧
    ∀ u : ℝ, 0 ≤ u →
      ((ray.pointAt u).sub s.center).dot ((ray.pointAt u).sub s.center) = s.radius ^ 2 →
      t ≤ u := by
  obtain ⟨htca, hproj, ht⟩ := intersect_eq_some_dest hsome
  have hprojdef : s.projDist2 ray =
      (s.center.sub ray.origin).dot (s.center.sub ray.origin) - s.rayToCenter ray ^ 2 := rfl
  have hray : s.rayToCenter ray = (s.center.sub ray.origin).dot ray.direction := rfl
  have hnn : 0 ≤ Real.sqrt (s.radius ^ 2 - s.projDist2 ray) := Real.sqrt_nonneg _
  have hh2 : Real.sqrt (s.radius ^ 2 - s.projDist2 ray) ^ 2 = s.radius ^ 2 - s.projDist2 ray :=
    Real.sq_sqrt (by linarith)
  have htnn : 0 ≤ t := by
    have hle : Real.sqrt (s.radius ^ 2 - s.projDist2 ray) ≤
        Real.sqrt (s.rayToCenter ray ^ 2) := Real.sqrt_le_sqrt (by linarith)
    rw [Real.sqrt_sq htca] at hle
    rw [ht]
    linarith
  refine ⟨htnn, ?_, ?_⟩
  · rw [pointAt_sub_center_dot, hunit, ht]
    linear_combination (2 * s.rayToCenter ray -
      2 * Real.sqrt (s.radius ^ 2 - s.projDist2 ray)) * hray - hprojdef + hh2
  · intro u hu htouch
    rw [pointAt_sub_center_dot, hunit] at htouch
    have key : (u - s.rayToCenter ray) ^ 2 =
        Real.sqrt (s.radius ^ 2 - s.projDist2 ray) ^ 2 := by
      linear_combination htouch + hprojdef - hh2 - (2 * u) * hray
    have hfac : (u - s.rayToCenter ray - Real.sqrt (s.radius ^ 2 - s.projDist2 ray)) *
        (u - s.rayToCenter ray + Real.sqrt (s.radius ^ 2 - s.projDist2 ray)) = 0 := by
      linear_combination key
    rcases mul_eq_zero.mp hfac with h0 | h0
    · rw [ht]
      linarith
    · rw [ht]
      linarith

/-- C1 (witness for the amended theorem): the unit-direction ray from the
origin towards the sphere of radius 1 centered at `(0,0,5)` returns the hit
distance 4, which is non-negative. -/
theorem claim1_witness :
    (0 : ℝ) ≤ 4 ∧
    Sphere.intersect ⟨⟨0, 0, 5⟩, 1⟩ (Ray.new ⟨0, 0, 0⟩ ⟨0, 0, 1⟩) = some 4 := by
  have hsome : Sphere.intersect ⟨⟨0, 0, 5⟩, 1⟩ (Ray.new ⟨0, 0, 0⟩ ⟨0, 0, 1⟩) = some 4 := by
    have h1 : Sphere.rayToCenter ⟨⟨0, 0, 5⟩, 1⟩ (Ray.new ⟨0, 0, 0⟩ ⟨0, 0, 1⟩) = 5 := by
      norm_num [Sphere.rayToCenter, Vec3.sub, Vec3.dot, Ray.new]
    have h2 : Sphere.projDist2 ⟨⟨0, 0, 5⟩, 1⟩ (Ray.new ⟨0, 0, 0⟩ ⟨0, 0, 1⟩) = 0 := by
      norm_num [Sphere.projDist2, Sphere.rayToCenter, Vec3.sub, Vec3.dot, Ray.new]
    have hs : Real.sqrt ((1 : ℝ) ^ 2 - 0) = 1 := by
      rw [sub_zero, Real.sqrt_sq]
      norm_num
    rw [intersect_eval, h1, h2, hs]
    norm_num
  have h := claim1_amended ⟨⟨0, 0, 5⟩, 1⟩ (Ray.new ⟨0, 0, 0⟩ ⟨0, 0, 1⟩) 4
    (by norm_num [Vec3.dot, Ray.new])
    (by norm_num [Vec3.sub, Vec3.dot, Ray.new])
    hsome
  exact ⟨h.1, hsome⟩

/-- C5: a tangent ray — non-negative projection and `perp_dist_sq` exactly
equal to `radius^2` — is classified as a hit: the distance comparison is
boundary-inclusive, and the returned distance is `t_ca`. -/
theorem claim5_tangent_hit (s : Sphere) (ray : Ray)
    (hproj : 0 ≤ s.rayToCenter ray) (htan : s.projDist2 ray = s.radius ^ 2) :
    s.intersect ray = some (s.rayToCenter ray) := by
  rw [intersect_eval, htan, if_neg (not_lt.mpr hproj), if_neg (lt_irrefl _), sub_self,
    Real.sqrt_zero, sub_zero, add_zero, if_neg fun hh => absurd hh.1 (not_lt.mpr hproj),
    if_neg (lt_irrefl _)]

/-- C5 (witness): the `z`-axis ray from the origin is tangent to the unit
sphere centered at `(0,1,0)` and `intersect` reports the hit `Some(0)`. -/
theorem claim5_witness :
    Sphere.intersect ⟨⟨0, 1, 0⟩, 1⟩ (Ray.new ⟨0, 0, 0⟩ ⟨0, 0, 1⟩) = some 0 := by
  have h := claim5_tangent_hit ⟨⟨0, 1, 0⟩, 1⟩ (Ray.new ⟨0, 0, 0⟩ ⟨0, 0, 1⟩)
    (by norm_num [Sphere.rayToCenter, Vec3.sub, Vec3.dot, Ray.new])
    (by norm_num [Sphere.projDist2, Sphere.rayToCenter, Vec3.sub, Vec3.dot, Ray.new])
  rw [h]
  norm_num [Sphere.rayToCenter, Vec3.sub, Vec3.dot, Ray.new]

/-- C6: `Canvas::draw` writes `color.to_rgba()` at `(x, y)` and succeeds
exactly when `x < width` and `y < height`; outside that range it panics
(bounds fault) and leaves the canvas untouched; in particular the corner
`(width-1, height-1)` succeeds on a non-empty canvas. -/
theorem claim6_draw_bounds (c : Canvas) (x y : ℕ) (col : Color) :
    (x < c.width → y < c.height →
      c.draw x y col = (c.writePixel x y col.to_rgba, none) ∧
      ((c.draw x y col).1).pixels x y = col.to_rgba) ∧
    (c.width ≤ x ∨ c.height ≤ y → c.draw x y col = (c, some Panic.bounds)) ∧
    (0 < c.width → 0 < c.height →
      ((c.draw (c.width - 1) (c.height - 1) col).2) = none) := by
  refine ⟨fun hx hy => ⟨draw_of_lt hx hy col, ?_⟩, fun h => draw_of_oob h col,
    fun hw hh => ?_⟩
  · rw [draw_pixels_of_lt hx hy, if_pos ⟨rfl, rfl⟩]
  · rw [draw_of_lt (by omega) (by omega)]

/-- C6 (witness): on a 2×2 canvas, drawing at the corner `(1,1)` succeeds and
stores the color, and drawing at `(2,1)` faults with the bounds panic leaving
the canvas unchanged. -/
theorem claim6_witness :
    ((Canvas.new 2 2).draw 1 1 (Color.new 7 8 9)).2 = none ∧
    (((Canvas.new 2 2).draw 1 1 (Color.new 7 8 9)).1).pixels 1 1 =
      Color.to_rgba (Color.new 7 8 9) ∧
    (Canvas.new 2 2).draw 2 1 (Color.new 7 8 9) = (Canvas.new 2 2, some Panic.bounds) := by
  have h1 := (claim6_draw_bounds (Canvas.new 2 2) 1 1 (Color.new 7 8 9)).1
    (by norm_num [Canvas.new]) (by norm_num [Canvas.new])
  have h2 := (claim6_draw_bounds (Canvas.new 2 2) 2 1 (Color.new 7 8 9)).2.1
    (Or.inl (by norm_num [Canvas.new]))
  refine ⟨?_, h1.2, h2⟩
  rw [h1.1]

/-- C8: `Color::to_rgba` maps `(r, g, b)` to exactly the 4-channel pixel
`(r, g, b, 0)` — the alpha byte is always zero. -/
theorem claim8_to_rgba_alpha (col : Color) :
    col.to_rgba = { r := col.red, g := col.green, b := col.blue, a := 0 } ∧
    (col.to_rgba).a = 0 :=
  ⟨rfl, rfl⟩

/-- C9: `Canvas::draw_area` with `block_width = 0` always dies of the
division by zero in the bounds pre-check (the division occurs even when the
first disjunct of the guard is the one that fires, because the panic message
arguments are evaluated eagerly), for every canvas, position and color
sequence — including the empty one — and no pixel is written. -/
theorem claim9_draw_area_zero_width (c : Canvas) (x y : ℕ) (colors : List Color) :
    c.draw_area x y 0 colors = (c, some Panic.divZero) := by
  unfold Canvas.draw_area
  rw [if_pos rfl]

/-- C10: `draw_area` never changes a pixel cell outside the canvas extent —
even when its rounded-down pre-check admits a final partial row at row index
`height`, every element write goes through `draw`'s per-pixel bounds check,
so the loop faults before any out-of-bounds write lands (earlier in-bounds
elements may already have been written, inside the extent). -/
theorem claim10_draw_area_inbounds (c : Canvas) (x y width : ℕ) (colors : List Color)
    {a b : ℕ} (h : c.width ≤ a ∨ c.height ≤ b) :
    ((c.draw_area x y width colors).1).pixels a b = c.pixels a b :=
  draw_area_pixels_oob c x y width colors h

/-- C10 (witness): on a 2×1 canvas, `draw_area 0 0 2` with three colors
passes the pre-check (`3 / 2 = 1`), writes the first row, faults on the
third element at `(0,1)` — and the out-of-extent cell `(0,1)` is untouched. -/
theorem claim10_witness :
    (((Canvas.new 2 1).draw_area 0 0 2
        [Color.new 1 1 1, Color.new 2 2 2, Color.new 3 3 3]).1).pixels 0 1 =
      Rgba.mk 0 0 0 0 := by
  have h := @claim10_draw_area_inbounds (Canvas.new 2 1) 0 0 2
    [Color.new 1 1 1, Color.new 2 2 2, Color.new 3 3 3] 0 1
    (Or.inr (by norm_num [Canvas.new]))
  rw [h]
  rfl

/-- C2 (counterexample): the silhouette set of the claim is not clipped to
the canvas, so on a 1×1 canvas with the unit sphere centered at `(5,5,0)`
the point `(5,5)` satisfies `(x-Sx)^2 + (y-Sy)^2 ≤ r^2` yet is never drawn:
the claimed set equality fails for this scene and canvas. -/
theorem claim2_counterexample :
    ((5 : ℝ) - 5) ^ 2 + ((5 : ℝ) - 5) ^ 2 ≤ (1 : ℝ) ^ 2 ∧
    ((5, 5) : ℕ × ℕ) ∉ renderTrace (Scene.mk [⟨⟨5, 5, 0⟩, 1⟩]) (Canvas.new 1 1) := by
  refine ⟨by norm_num, ?_⟩
  rw [mem_renderTrace]
  rintro ⟨h5, -⟩
  norm_num [Canvas.new] at h5

/-- C2 (amended): for a single-sphere scene with `Sz = 0`, the set of pixels
drawn by `render` is exactly the disk `(x-Sx)^2 + (y-Sy)^2 ≤ r^2`
intersected with the canvas extent (exact, since the model uses real
arithmetic in place of `f32`). -/
theorem claim2_amended (s : Sphere) (c : Canvas) (x y : ℕ) (hz : s.center.z = 0) :
    (x, y) ∈ renderTrace (Scene.mk [s]) c ↔
      x < c.width ∧ y < c.height ∧
      ((x : ℝ) - s.center.x) ^ 2 + ((y : ℝ) - s.center.y) ^ 2 ≤ s.radius ^ 2 := by
  rw [mem_renderTrace]
  have hiff : anyHit [s] x y = true ↔
      ((x : ℝ) - s.center.x) ^ 2 + ((y : ℝ) - s.center.y) ^ 2 ≤ s.radius ^ 2 := by
    simp only [anyHit, List.any_cons, List.any_nil, Bool.or_false]
    rw [intersect_isSome_iff]
    have h1 : s.rayToCenter (pixelRay x y) = 0 := by
      simp [Sphere.rayToCenter, pixelRay, Ray.new, Vec3.sub, Vec3.dot, hz]
    have h2 : s.projDist2 (pixelRay x y) =
        ((x : ℝ) - s.center.x) ^ 2 + ((y : ℝ) - s.center.y) ^ 2 := by
      simp only [Sphere.projDist2, Sphere.rayToCenter, pixelRay, Ray.new, Vec3.sub,
        Vec3.dot, hz]
      ring
    rw [h1, h2]
    simp [le_refl]
  rw [hiff]

/-- C2 (witness for the amended theorem): with the unit sphere at the origin
on a 1×1 canvas, pixel `(0,0)` lies in the disk and is drawn. -/
theorem claim2_witness :
    ((0, 0) : ℕ × ℕ) ∈ renderTrace (Scene.mk [⟨⟨0, 0, 0⟩, 1⟩]) (Canvas.new 1 1) :=
  (claim2_amended ⟨⟨0, 0, 0⟩, 1⟩ (Canvas.new 1 1) 0 0 rfl).mpr
    (by norm_num [Canvas.new])

/-- C3: `render` never panics; an in-extent pixel whose ray is hit by some
object of the scene (whatever the distance, however many objects hit) ends up
holding the fixed hit color `(0,255,0)`, and a pixel no object hits is left
untouched. -/
theorem claim3_any_hit_draws (r : Scene) (c : Canvas) (x y : ℕ)
    (hx : x < c.width) (hy : y < c.height) :
    (Raytracer.render r c).2 = none ∧
    ((∃ o ∈ r.renderables, (o.intersect (pixelRay x y)).isSome = true) →
      ((Raytracer.render r c).1).pixels x y = Color.to_rgba (Color.new 0 255 0)) ∧
    ((∀ o ∈ r.renderables, (o.intersect (pixelRay x y)).isSome = false) →
      ((Raytracer.render r c).1).pixels x y = c.pixels x y) := by
  obtain ⟨h1, -, -, h4⟩ := render_spec r c
  refine ⟨h1, fun hex => ?_, fun hnone => ?_⟩
  · have hhit : anyHit r.renderables x y = true := by
      simp only [anyHit, List.any_eq_true]
      exact hex
    rw [h4 x y, if_pos ⟨hx, hy, hhit⟩]
    rfl
  · have hhit : ¬(x < c.width ∧ y < c.height ∧ anyHit r.renderables x y = true) := by
      rintro ⟨-, -, hany⟩
      simp only [anyHit, List.any_eq_true] at hany
      obtain ⟨o, ho, hsome⟩ := hany
      rw [hnone o ho] at hsome
      exact Bool.false_ne_true hsome
    rw [h4 x y, if_neg hhit]

/-- C3 (witness): the unit sphere at the origin hits pixel `(0,0)` of a 1×1
canvas, and that pixel of the rendered canvas holds `(0,255,0)`. -/
theorem claim3_witness :
    ((Raytracer.render (Scene.mk [⟨⟨0, 0, 0⟩, 1⟩]) (Canvas.new 1 1)).1).pixels 0 0 =
      Color.to_rgba (Color.new 0 255 0) := by
  refine ((claim3_any_hit_draws (Scene.mk [⟨⟨0, 0, 0⟩, 1⟩]) (Canvas.new 1 1) 0 0
    (by norm_num [Canvas.new]) (by norm_num [Canvas.new])).2.1) ?_
  refine ⟨⟨⟨0, 0, 0⟩, 1⟩, List.mem_cons_self _ _, ?_⟩
  rw [intersect_isSome_iff]
  constructor
  · norm_num [Sphere.rayToCenter, pixelRay, Ray.new, Vec3.sub, Vec3.dot]
  · norm_num [Sphere.projDist2, Sphere.rayToCenter, pixelRay, Ray.new, Vec3.sub, Vec3.dot]

/-- C4 (counterexample): with a scene holding two copies of the unit sphere
at the origin, the single render pass over a 1×1 canvas issues two writes to
the same cell `(0,0)` — refuting "each canvas pixel cell is written exactly
once, and no two writes ever target the same pixel cell". -/
theorem claim4_counterexample :
    (renderTrace (Scene.mk [⟨⟨0, 0, 0⟩, 1⟩, ⟨⟨0, 0, 0⟩, 1⟩]) (Canvas.new 1 1)).count
        (0, 0) = 2 ∧ (2 : ℕ) ≠ 1 := by
  refine ⟨?_, by norm_num⟩
  rw [count_renderTrace, if_pos (by norm_num [Canvas.new])]
  have hsome : ((⟨⟨0, 0, 0⟩, 1⟩ : Sphere).intersect (pixelRay 0 0)).isSome = true := by
    rw [intersect_isSome_iff]
    constructor
    · norm_num [Sphere.rayToCenter, pixelRay, Ray.new, Vec3.sub, Vec3.dot]
    · norm_num [Sphere.projDist2, Sphere.rayToCenter, pixelRay, Ray.new, Vec3.sub,
        Vec3.dot]
  simp [List.countP_cons, hsome]

/-- C4 (amended): during a single render pass, writes from distinct pixel
iterations never target the same cell, and each in-extent cell is written
exactly once per object whose test hits its ray — so exactly once when
exactly one object hits it, and zero times when no object does; cells
outside the extent are never written. -/
theorem claim4_amended (r : Scene) (c : Canvas) (x y : ℕ) :
    (renderTrace r c).count (x, y) =
      if x < c.width ∧ y < c.height then
        r.renderables.countP (fun o => (o.intersect (pixelRay x y)).isSome) else 0 :=
  count_renderTrace r c x y

/-- C7 (counterexample): `draw_area` is not equivalent to the sequence of
per-element `draw` calls: with an empty color sequence and `block_width`
larger than the canvas, the pre-check faults although the (empty) sequence
of `draw` calls succeeds. -/
theorem claim7_counterexample :
    (Canvas.new 1 1).draw_area 0 0 2 [] = (Canvas.new 1 1, some Panic.bounds) ∧
    Canvas.drawSeq 0 0 2 (Canvas.new 1 1) 0 [] = (Canvas.new 1 1, none) := by
  constructor
  · unfold Canvas.draw_area
    rw [if_neg (by norm_num), if_pos (by norm_num [Canvas.new, U32])]
  · rfl

/-- C7 (amended): when the bounds pre-check passes (positive `block_width`,
block and rounded-down row count inside the canvas, no `u32` wrap),
`draw_area` is exactly the sequence of `draw` calls placing element `i` at
`(x + i % block_width, y + i / block_width)`; when the pre-check fails
(including `block_width = 0`, which dies of division by zero), it faults
fatally without writing anything — even if the per-element draws would all
have succeeded. -/
theorem claim7_amended (c : Canvas) (x y width : ℕ) (colors : List Color) :
    (0 < width → x + width ≤ c.width → y + colors.length / width ≤ c.height →
      c.width < U32 → c.height < U32 → colors.length < U32 →
      c.draw_area x y width colors = Canvas.drawSeq x y width c 0 colors) ∧
    (width = 0 ∨ c.width < (x + width) % U32 ∨
        (width ≠ 0 ∧ c.height < (y + colors.length % U32 / width) % U32) →
      ∃ p : Panic, c.draw_area x y width colors = (c, some p)) := by
  constructor
  · intro h1 h2 h3 h4 h5 h6
    exact draw_area_eq_drawSeq c x y width colors h1 h2 h3 h4 h5 h6
  · intro hfault
    unfold Canvas.draw_area
    rcases hfault with h0 | hbound | ⟨hnz, hheight⟩
    · rw [if_pos h0]
      exact ⟨Panic.divZero, rfl⟩
    · by_cases h0 : width = 0
      · rw [if_pos h0]
        exact ⟨Panic.divZero, rfl⟩
      · rw [if_neg h0, if_pos hbound]
        exact ⟨Panic.bounds, rfl⟩
    · by_cases hb : c.width < (x + width) % U32
      · rw [if_neg hnz, if_pos hb]
        exact ⟨Panic.bounds, rfl⟩
      · rw [if_neg hnz, if_neg hb, if_pos hheight]
        exact ⟨Panic.bounds, rfl⟩

/-- C7 (witness for the amended theorem): a 2×2 block of four colors starting
at the origin of a 2×2 canvas passes the pre-check and runs exactly the four
sequential `draw` calls. -/
theorem claim7_witness :
    (Canvas.new 2 2).draw_area 0 0 2
        [Color.new 1 0 0, Color.new 0 1 0, Color.new 0 0 1, Color.new 1 1 1] =
      Canvas.drawSeq 0 0 2 (Canvas.new 2 2) 0
        [Color.new 1 0 0, Color.new 0 1 0, Color.new 0 0 1, Color.new 1 1 1] :=
  (claim7_amended (Canvas.new 2 2) 0 0 2
      [Color.new 1 0 0, Color.new 0 1 0, Color.new 0 0 1, Color.new 1 1 1]).1
    (by norm_num) (by norm_num [Canvas.new]) (by norm_num [Canvas.new])
    (by norm_num [Canvas.new, U32]) (by norm_num [Canvas.new, U32]) (by norm_num [U32])

end RTracer
